import Mathlib

/-!
Shallow embedding of the semantic-segmentation dataset pipeline from
`chapter_computer-vision/semantic-segmentation-and-dataset.ipynb`:
the VOC colormap lookup table, the label decoder, the paired random
cropper, and the filtering dataset wrapper `VOCSegDataset`.

Images (mxnet ndarrays of shape H×W×C) are embedded as lists of rows,
each row a list of pixels; an RGB pixel is a triple of naturals.
Normalized feature images carry rational pixels.  Randomness is made
explicit: the `random.randint` draws inside `mxnet.image.random_crop`
become parameters `sx sy : ℕ` mapped into the valid offset range by `%`,
exactly as `randint(0, hi)` yields a value in `[0, hi]`.
-/

namespace VOC

/-- An RGB pixel: channel values are naturals (8-bit in valid inputs). -/
abbrev RGB : Type := ℕ × ℕ × ℕ

/-- An image: a list of rows, each row a list of pixels of type `α`. -/
abbrev Image (α : Type) : Type := List (List α)

/-- Height of an image (`shape[0]`). -/
def height {α : Type} (img : Image α) : ℕ := img.length

/-- Width of an image (`shape[1]`): length of the first row.  mxnet
ndarrays are rectangular, which `isRect` captures. -/
def width {α : Type} (img : Image α) : ℕ := (img.headD []).length

/-- Predicate: `img` is a rectangular `H × W` grid, as every ndarray of shape
`(H, W, 3)` is. -/
def isRect {α : Type} (img : Image α) (H W : ℕ) : Prop :=
  img.length = H ∧ ∀ row ∈ img, row.length = W

/-- Pixel access `img[i][j]`. -/
def pixel {α : Type} (img : Image α) (i j : ℕ) : Option α :=
  (img.get? i).bind fun row => row.get? j

/-- Constant `VOC_COLORMAP` from the notebook: the 21 palette RGB triples,
index position = class id. -/
def VOC_COLORMAP : List RGB :=
  [(0, 0, 0), (128, 0, 0), (0, 128, 0), (128, 128, 0),
   (0, 0, 128), (128, 0, 128), (0, 128, 128), (128, 128, 128),
   (64, 0, 0), (192, 0, 0), (64, 128, 0), (192, 128, 0),
   (64, 0, 128), (192, 0, 128), (64, 128, 128), (192, 128, 128),
   (0, 64, 0), (128, 64, 0), (0, 192, 0), (128, 192, 0),
   (0, 64, 128)]

/-- Constant `VOC_CLASSES` from the notebook: class names, index-aligned with
`VOC_COLORMAP`. -/
def VOC_CLASSES : List String :=
  ["background", "aeroplane", "bicycle", "bird", "boat",
   "bottle", "bus", "car", "cat", "chair", "cow",
   "diningtable", "dog", "horse", "motorbike", "person",
   "potted plant", "sheep", "sofa", "train", "tv/monitor"]

/-- The packed key `(r * 256 + g) * 256 + b` used both to build the
lookup table and to decode label pixels. -/
def colorKey (c : RGB) : ℕ := (c.1 * 256 + c.2.1) * 256 + c.2.2

/-- The `colormap2label` lookup table.  The notebook builds
`nd.zeros(256 ** 3)` and then, for `i, colormap in enumerate(VOC_COLORMAP)`,
sets `colormap2label[(c[0]*256+c[1])*256+c[2]] = i`.  The dense
zero-initialised array is embedded as the function that is `0` away
from the assigned keys; a later assignment overwrites an earlier one,
as in the loop. -/
def buildColormap2label (palette : List RGB) : ℕ → ℕ :=
  palette.enum.foldl (fun t ic => fun k => if k = colorKey ic.2 then ic.1 else t k)
    (fun _ => 0)

/-- The module-level table built from `VOC_COLORMAP`. -/
def colormap2label : ℕ → ℕ := buildColormap2label VOC_COLORMAP

/-- Function `voc_label_indices(colormap, colormap2label)`: pack each pixel's
RGB triple into `idx = (R*256 + G)*256 + B`, then index the table.
The two array operations of the code (the `idx` computation and the
table gather) are the two `map` stages. -/
def voc_label_indices (colormap : Image RGB) (table : ℕ → ℕ) : Image ℕ :=
  (colormap.map (List.map colorKey)).map (List.map table)

/-- Embedding of `mxnet.image.fixed_crop(src, x0, y0, w, h)` (without the resize
argument, as all call sites here use it): slice rows `[y0, y0+h)` and
columns `[x0, x0+w)`.  The underlying `nd.slice` raises an error when
the requested end exceeds the source shape, embedded as `none`. -/
def fixed_crop {α : Type} (src : Image α) (x0 y0 w h : ℕ) : Option (Image α) :=
  if y0 + h ≤ height src ∧ x0 + w ≤ width src then
    some (((src.drop y0).take h).map fun row => (row.drop x0).take w)
  else none

/-- Embedding of `mxnet.image.random_crop(src, (w, h))` with the two `random.randint`
draws made explicit as `sx sy`: `x0 = randint(0, W - w)`,
`y0 = randint(0, H - h)`, then `fixed_crop` at that offset, returning
the crop together with the rectangle `(x0, y0, w, h)`.  The scale-down
and interpolating-resize path that `random_crop` takes when the
requested crop exceeds the source dimensions is not modelled (`none`);
every use below stays on the `crop ≤ source` path, which the dataset's
size filter guarantees. -/
def random_crop {α : Type} (src : Image α) (w h sx sy : ℕ) :
    Option (Image α × ℕ × ℕ × ℕ × ℕ) :=
  if h ≤ height src ∧ w ≤ width src then
    let x0 := sx % (width src - w + 1)
    let y0 := sy % (height src - h + 1)
    (fixed_crop src x0 y0 w h).map fun out => (out, x0, y0, w, h)
  else none

/-- Function `voc_rand_crop(feature, label, height, width)` from the notebook:
random-crop the feature to `(width, height)`, then fixed-crop the label
with the returned rectangle. -/
def voc_rand_crop {α β : Type} (feature : Image α) (label : Image β)
    (h w sx sy : ℕ) : Option (Image α × Image β) :=
  match random_crop feature w h sx sy with
  | some (f, x0, y0, w', h') => (fixed_crop label x0 y0 w' h').map fun l => (f, l)
  | none => none

/-- Constant `self.rgb_mean = nd.array([0.485, 0.456, 0.406])`, as exact rationals. -/
def rgb_mean : ℚ × ℚ × ℚ := (485/1000, 456/1000, 406/1000)

/-- Constant `self.rgb_std = nd.array([0.229, 0.224, 0.225])`, as exact rationals. -/
def rgb_std : ℚ × ℚ × ℚ := (229/1000, 224/1000, 225/1000)

/-- Method `normalize_image(img) = (img.astype('float32') / 255 - rgb_mean) / rgb_std`:
the broadcast arithmetic applied pixel-wise and channel-wise, over ℚ. -/
def normalize_image (img : Image RGB) : Image (ℚ × ℚ × ℚ) :=
  img.map (List.map fun c =>
    (((c.1 : ℚ) / 255 - rgb_mean.1) / rgb_std.1,
     ((c.2.1 : ℚ) / 255 - rgb_mean.2.1) / rgb_std.2.1,
     ((c.2.2 : ℚ) / 255 - rgb_mean.2.2) / rgb_std.2.2))

/-- The `filter` method of `VOCSegDataset`: keep the images whose
`shape[0] ≥ crop_size[0]` and `shape[1] ≥ crop_size[1]`. -/
def sizeFilter {α : Type} (crop_size : ℕ × ℕ) (imgs : List (Image α)) :
    List (Image α) :=
  imgs.filter fun img => decide (crop_size.1 ≤ height img ∧ crop_size.2 ≤ width img)

/-- State of a constructed `VOCSegDataset`: the crop size, the stored
(already filtered and normalized) features, the stored (filtered) raw
labels, and the shared lookup table. -/
structure VOCSegDataset : Type where
  crop_size : ℕ × ℕ
  features : List (Image (ℚ × ℚ × ℚ))
  labels : List (Image RGB)
  table : ℕ → ℕ

/-- Constructor `VOCSegDataset.__init__` after `read_voc_images` returned `features`
and `labels`: `self.features = [normalize_image(f) for f in self.filter(features)]`,
`self.labels = self.filter(labels)`. -/
def mkVOCSegDataset (crop_size : ℕ × ℕ) (features labels : List (Image RGB))
    (table : ℕ → ℕ) : VOCSegDataset :=
  { crop_size := crop_size
    features := (sizeFilter crop_size features).map normalize_image
    labels := sizeFilter crop_size labels
    table := table }

/-- Method `VOCSegDataset.__len__`: `len(self.features)`. -/
def VOCSegDataset.len (ds : VOCSegDataset) : ℕ := ds.features.length

/-- Python list indexing `l[idx]`: a negative index counts from the end;
`IndexError` (out of range on either side) is embedded as `none`. -/
def pyIndex {α : Type} (l : List α) (idx : ℤ) : Option α :=
  if 0 ≤ idx then l.get? idx.toNat
  else if 0 ≤ (l.length : ℤ) + idx then l.get? ((l.length : ℤ) + idx).toNat
  else none

/-- Transpose `feature.transpose((2, 0, 1))`: an H×W image of channel triples
becomes three H×W single-channel planes. -/
def transposeCHW {α : Type} (img : Image (α × α × α)) : List (Image α) :=
  [img.map (List.map fun p => p.1),
   img.map (List.map fun p => p.2.1),
   img.map (List.map fun p => p.2.2)]

/-- Method `VOCSegDataset.__getitem__(idx)`: index `self.features` and
`self.labels` with Python list semantics, `voc_rand_crop` the pair at
this dataset's crop size (the `random.randint` draws as `sx sy`), then
return the transposed feature crop and the decoded label crop. -/
def VOCSegDataset.getitem (ds : VOCSegDataset) (idx : ℤ) (sx sy : ℕ) :
    Option (List (Image ℚ) × Image ℕ) :=
  match pyIndex ds.features idx, pyIndex ds.labels idx with
  | some feature, some label =>
      match voc_rand_crop feature label ds.crop_size.1 ds.crop_size.2 sx sy with
      | some (f, l) => some (transposeCHW f, voc_label_indices l ds.table)
      | none => none
  | _, _ => none

/-! ### Helper lemmas -/

/-- In a rectangular image every row has length `width img`. -/
lemma rows_length_eq_width {α : Type} {img : Image α} {H W : ℕ}
    (h : isRect img H W) : ∀ row ∈ img, row.length = width img := by
  intro row hrow
  cases img with
  | nil => cases hrow
  | cons r rs =>
      have h1 := h.2 row hrow
      have h2 := h.2 r (List.mem_cons_self r rs)
      show row.length = ((r :: rs).headD []).length
      rw [List.headD_cons, h1, h2]

/-- A nonempty rectangular image has `height` and `width` equal to its
stated dimensions. -/
lemma isRect_dims {α : Type} {img : Image α} {H W : ℕ}
    (h : isRect img H W) (hH : 0 < H) : height img = H ∧ width img = W := by
  refine ⟨h.1, ?_⟩
  cases img with
  | nil =>
      obtain ⟨h1, _⟩ := h
      simp only [List.length_nil] at h1
      omega
  | cons r rs =>
      have h2 := h.2 r (List.mem_cons_self r rs)
      show ((r :: rs).headD []).length = W
      rw [List.headD_cons]
      exact h2

/-- Pixel access commutes with mapping a function over the pixels. -/
lemma pixel_map {α β : Type} (f : α → β) (img : Image α) (i j : ℕ) :
    pixel (img.map (List.map f)) i j = Option.map f (pixel img i j) := by
  unfold pixel
  rw [List.get?_eq_getElem?, List.get?_eq_getElem?, List.getElem?_map]
  cases img[i]? with
  | none => rfl
  | some row =>
      simp [List.get?_eq_getElem?, List.getElem?_map]

/-- Mapping a function over the pixels preserves rectangular shape. -/
lemma isRect_map_map {α β : Type} (f : α → β) {img : Image α} {H W : ℕ}
    (h : isRect img H W) : isRect (img.map (List.map f)) H W := by
  constructor
  · simpa using h.1
  · intro row hrow
    obtain ⟨r, hr, rfl⟩ := List.mem_map.1 hrow
    simpa using h.2 r hr

/-- Specification of `fixed_crop` when the rectangle is in bounds: it
succeeds, the crop is a `h × w` grid, and pixel `(i, j)` of the crop is
pixel `(y0 + i, x0 + j)` of the source. -/
lemma fixed_crop_spec {α : Type} {src : Image α} {x0 y0 w h : ℕ}
    (hrect : ∀ row ∈ src, row.length = width src)
    (hy : y0 + h ≤ height src) (hx : x0 + w ≤ width src) :
    ∃ out, fixed_crop src x0 y0 w h = some out ∧ isRect out h w ∧
      ∀ i j, i < h → j < w → pixel out i j = pixel src (y0 + i) (x0 + j) := by
  refine ⟨((src.drop y0).take h).map fun row => (row.drop x0).take w, ?_, ⟨?_, ?_⟩, ?_⟩
  · unfold fixed_crop
    rw [if_pos ⟨hy, hx⟩]
  · simp only [List.length_map, List.length_take, List.length_drop]
    unfold height at hy
    omega
  · intro row hrow
    obtain ⟨r, hr, rfl⟩ := List.mem_map.1 hrow
    have hrlen := hrect r (List.mem_of_mem_drop (List.mem_of_mem_take hr))
    simp only [List.length_take, List.length_drop, hrlen]
    omega
  · intro i j hi hj
    unfold pixel
    rw [List.get?_eq_getElem?, List.getElem?_map, List.getElem?_take_of_lt hi,
      List.getElem?_drop, List.get?_eq_getElem?]
    cases hcell : src[y0 + i]? with
    | none => rfl
    | some r =>
        simp [List.get?_eq_getElem?, List.getElem?_take_of_lt hj, List.getElem?_drop]

/-- Specification of `voc_rand_crop` on a matched pair: for any random
draws it succeeds, a single in-bounds offset `(x0, y0)` is chosen, both
crops are `cH × cW` grids, and both reproduce the source pixels at that
offset. -/
lemma voc_rand_crop_spec {α β : Type} {feature : Image α} {label : Image β}
    {cH cW : ℕ} (sx sy : ℕ)
    (hrf : ∀ row ∈ feature, row.length = width feature)
    (hrl : ∀ row ∈ label, row.length = width label)
    (hh : height feature = height label) (hw : width feature = width label)
    (hcH : cH ≤ height feature) (hcW : cW ≤ width feature) :
    ∃ fc lc x0 y0,
      voc_rand_crop feature label cH cW sx sy = some (fc, lc) ∧
      x0 + cW ≤ width feature ∧ y0 + cH ≤ height feature ∧
      isRect fc cH cW ∧ isRect lc cH cW ∧
      ∀ i j, i < cH → j < cW →
        pixel fc i j = pixel feature (y0 + i) (x0 + j) ∧
        pixel lc i j = pixel label (y0 + i) (x0 + j) := by
  have hxb : sx % (width feature - cW + 1) + cW ≤ width feature := by
    have := Nat.mod_lt sx (show 0 < width feature - cW + 1 by omega)
    omega
  have hyb : sy % (height feature - cH + 1) + cH ≤ height feature := by
    have := Nat.mod_lt sy (show 0 < height feature - cH + 1 by omega)
    omega
  obtain ⟨fc, hfc, hfrect, hfpix⟩ := fixed_crop_spec hrf hyb hxb
  have hyb2 : sy % (height feature - cH + 1) + cH ≤ height label := by
    rw [← hh]; exact hyb
  have hxb2 : sx % (width feature - cW + 1) + cW ≤ width label := by
    rw [← hw]; exact hxb
  obtain ⟨lc, hlc, hlrect, hlpix⟩ := fixed_crop_spec hrl hyb2 hxb2
  refine ⟨fc, lc, sx % (width feature - cW + 1), sy % (height feature - cH + 1),
    ?_, hxb, hyb, hfrect, hlrect,
    fun i j hi hj => ⟨hfpix i j hi hj, hlpix i j hi hj⟩⟩
  unfold voc_rand_crop random_crop
  rw [if_pos ⟨hcH, hcW⟩]
  simp [hfc, hlc]

/-- C1: the paired random cropper, on a feature and a label of identical
height and width and a crop size bounded by those dimensions, succeeds
for every random draw, chooses one offset `(x0, y0)`, and returns crops
that are both `cH × cW` grids whose pixel `(i, j)` is the source pixel
`(y0 + i, x0 + j)` of the feature and of the label respectively — the
same spatial region of the original pair. -/
theorem voc_rand_crop_aligned {α β : Type} (feature : Image α) (label : Image β)
    (cH cW sx sy : ℕ)
    (hrf : ∀ row ∈ feature, row.length = width feature)
    (hrl : ∀ row ∈ label, row.length = width label)
    (hh : height feature = height label) (hw : width feature = width label)
    (hcH : cH ≤ height feature) (hcW : cW ≤ width feature) :
    ∃ fc lc x0 y0,
      voc_rand_crop feature label cH cW sx sy = some (fc, lc) ∧
      isRect fc cH cW ∧ isRect lc cH cW ∧
      ∀ i j, i < cH → j < cW →
        pixel fc i j = pixel feature (y0 + i) (x0 + j) ∧
        pixel lc i j = pixel label (y0 + i) (x0 + j) := by
  obtain ⟨fc, lc, x0, y0, heq, _, _, hfr, hlr, hpix⟩ :=
    voc_rand_crop_spec sx sy hrf hrl hh hw hcH hcW
  exact ⟨fc, lc, x0, y0, heq, hfr, hlr, hpix⟩

/-- Witness for C1 at a concrete matched pair: a 2×2 feature and label,
crop size 1×1, draws (0, 0). -/
theorem voc_rand_crop_aligned_witness :
    ∃ fc lc x0 y0,
      voc_rand_crop [[(1 : ℕ), 2], [3, 4]] [[(5 : ℕ), 6], [7, 8]] 1 1 0 0 =
        some (fc, lc) ∧
      isRect fc 1 1 ∧ isRect lc 1 1 ∧
      ∀ i j, i < 1 → j < 1 →
        pixel fc i j = pixel [[(1 : ℕ), 2], [3, 4]] (y0 + i) (x0 + j) ∧
        pixel lc i j = pixel [[(5 : ℕ), 6], [7, 8]] (y0 + i) (x0 + j) :=
  voc_rand_crop_aligned [[(1 : ℕ), 2], [3, 4]] [[(5 : ℕ), 6], [7, 8]] 1 1 0 0
    (by decide) (by decide) (by decide) (by decide) (by decide) (by decide)

/-- Each palette entry's packed key maps to its index in the built
table (20 overwrites of a zero table, all keys distinct). -/
lemma colormap2label_get :
    ∀ i : Fin VOC_COLORMAP.length,
      colormap2label (colorKey (VOC_COLORMAP.get i)) = i.1 := by decide

/-- The update fold leaves a key untouched when no enumerated palette
entry has that packed key. -/
lemma foldl_update_of_not_hit (l : List (ℕ × RGB)) (t : ℕ → ℕ) (k : ℕ)
    (h : ∀ ic ∈ l, k ≠ colorKey ic.2) :
    (l.foldl (fun t ic => fun k => if k = colorKey ic.2 then ic.1 else t k) t) k
      = t k := by
  induction l generalizing t with
  | nil => rfl
  | cons ic l ih =>
      rw [List.foldl_cons, ih _ fun x hx => h x (List.mem_cons_of_mem _ hx)]
      simp [h ic (List.mem_cons_self _ _)]

/-- The packed key determines the RGB triple when all channels are
below 256. -/
lemma colorKey_inj {c d : RGB} (hc1 : c.2.1 < 256) (hc2 : c.2.2 < 256)
    (hd1 : d.2.1 < 256) (hd2 : d.2.2 < 256) (h : colorKey c = colorKey d) :
    c = d := by
  obtain ⟨r, g, b⟩ := c
  obtain ⟨r', g', b'⟩ := d
  simp only [colorKey] at h
  simp only at hc1 hc2 hd1 hd2
  have : r = r' ∧ g = g' ∧ b = b' := by omega
  simp [this.1, this.2.1, this.2.2]

/-- All palette channel values are below 256. -/
lemma palette_channels_lt :
    ∀ c ∈ VOC_COLORMAP, c.1 < 256 ∧ c.2.1 < 256 ∧ c.2.2 < 256 := by decide

/-- C2: the lookup table built from `VOC_COLORMAP` maps, for every palette
index `i` in `0..20` with triple `(r, g, b)`, the packed key
`(r*256 + g)*256 + b` to `i`. -/
theorem colormap2label_palette :
    VOC_COLORMAP.length = 21 ∧
    ∀ i : Fin VOC_COLORMAP.length,
      colormap2label (colorKey (VOC_COLORMAP.get i)) = i.1 := by decide

/-- C3: the label decoder keeps the `H × W` spatial shape, maps every
pixel to the table entry of its packed RGB key, and on pixels holding
the `k`-th palette color (with the module-level table) produces exactly
the palette index `k`. -/
theorem voc_label_indices_decode (img : Image RGB) (table : ℕ → ℕ) (H W : ℕ)
    (hrect : isRect img H W) :
    isRect (voc_label_indices img table) H W ∧
    (∀ i j c, pixel img i j = some c →
      pixel (voc_label_indices img table) i j = some (table (colorKey c))) ∧
    (∀ i j k c, VOC_COLORMAP.get? k = some c → pixel img i j = some c →
      pixel (voc_label_indices img colormap2label) i j = some k) := by
  have hpix : ∀ (t : ℕ → ℕ) i j, pixel (voc_label_indices img t) i j =
      Option.map t (Option.map colorKey (pixel img i j)) := by
    intro t i j
    unfold voc_label_indices
    rw [pixel_map, pixel_map]
  refine ⟨?_, ?_, ?_⟩
  · exact isRect_map_map table (isRect_map_map colorKey hrect)
  · intro i j c hc
    rw [hpix, hc]
    rfl
  · intro i j k c hk hc
    rw [hpix, hc]
    have hlen : k < VOC_COLORMAP.length := (List.getElem?_eq_some.1
      (by rw [← List.get?_eq_getElem?]; exact hk)).1
    have hget : VOC_COLORMAP.get ⟨k, hlen⟩ = c := by
      have h2 := List.get?_eq_get hlen
      rw [hk] at h2
      exact (Option.some.inj h2).symm
    have := colormap2label_get ⟨k, hlen⟩
    rw [hget] at this
    simp [this]

/-- Witness for C3: a concrete 1×2 rectangular label image holding
palette colors 1 and 0. -/
theorem voc_label_indices_decode_witness :
    isRect (voc_label_indices [[(128, 0, 0), (0, 0, 0)]] colormap2label) 1 2 ∧
    (∀ i j c, pixel [[((128 : ℕ), (0 : ℕ), (0 : ℕ)), (0, 0, 0)]] i j = some c →
      pixel (voc_label_indices [[(128, 0, 0), (0, 0, 0)]] colormap2label) i j =
        some (colormap2label (colorKey c))) ∧
    (∀ i j k c, VOC_COLORMAP.get? k = some c →
      pixel [[((128 : ℕ), (0 : ℕ), (0 : ℕ)), (0, 0, 0)]] i j = some c →
      pixel (voc_label_indices [[(128, 0, 0), (0, 0, 0)]] colormap2label) i j =
        some k) :=
  voc_label_indices_decode [[(128, 0, 0), (0, 0, 0)]] colormap2label 1 2
    (by constructor <;> decide)

/-- C8: a label pixel whose RGB triple (8-bit channels) is not one of the
21 palette colors decodes, without error, to the table's default value
`0`, the index of the class named "background". -/
theorem voc_label_indices_unknown_color (img : Image RGB) (i j : ℕ) (c : RGB)
    (hmem : c ∉ VOC_COLORMAP) (hg : c.2.1 < 256) (hb : c.2.2 < 256)
    (hp : pixel img i j = some c) :
    pixel (voc_label_indices img colormap2label) i j = some 0 ∧
    VOC_CLASSES.get? 0 = some "background" := by
  refine ⟨?_, by decide⟩
  have hkey : ∀ ic ∈ VOC_COLORMAP.enum, colorKey c ≠ colorKey ic.2 := by
    intro ic hic hkeq
    have hmem2 : ic.2 ∈ VOC_COLORMAP := by
      have := List.enum_map_snd VOC_COLORMAP
      rw [← this]
      exact List.mem_map_of_mem Prod.snd hic
    obtain ⟨_, h1, h2⟩ := palette_channels_lt ic.2 hmem2
    exact hmem (colorKey_inj hg hb h1 h2 hkeq ▸ hmem2)
  have h0 : colormap2label (colorKey c) = 0 :=
    foldl_update_of_not_hit VOC_COLORMAP.enum (fun _ => 0) (colorKey c) hkey
  unfold voc_label_indices
  rw [pixel_map, pixel_map, hp]
  simp [h0]

/-- Witness for C8: the VOC border color (224, 224, 192), which is not a
palette entry, decodes to class 0. -/
theorem voc_label_indices_unknown_color_witness :
    pixel (voc_label_indices [[(224, 224, 192)]] colormap2label) 0 0 = some 0 ∧
    VOC_CLASSES.get? 0 = some "background" :=
  voc_label_indices_unknown_color [[(224, 224, 192)]] 0 0 (224, 224, 192)
    (by decide) (by decide) (by decide) (by decide)

/-- C6: normalization preserves the image's shape (same row count and
same length for every row) and maps every pixel's channel `c` value `v`
to `(v / 255 - mean_c) / std_c` with mean `(0.485, 0.456, 0.406)` and
standard deviation `(0.229, 0.224, 0.225)`. -/
theorem normalize_image_spec (img : Image RGB) :
    height (normalize_image img) = height img ∧
    (∀ i, Option.map List.length ((normalize_image img).get? i) =
      Option.map List.length (img.get? i)) ∧
    ∀ i j c, pixel img i j = some c →
      pixel (normalize_image img) i j =
        some (((c.1 : ℚ) / 255 - 485 / 1000) / (229 / 1000),
              ((c.2.1 : ℚ) / 255 - 456 / 1000) / (224 / 1000),
              ((c.2.2 : ℚ) / 255 - 406 / 1000) / (225 / 1000)) := by
  refine ⟨by simp [normalize_image, height], ?_, ?_⟩
  · intro i
    unfold normalize_image
    rw [List.get?_eq_getElem?, List.get?_eq_getElem?, List.getElem?_map]
    cases img[i]? with
    | none => rfl
    | some row => simp
  · intro i j c hc
    unfold normalize_image
    rw [pixel_map, hc]
    simp [rgb_mean, rgb_std]

/-- Witness for C6: the uniform gray value 128, in a 1×1 image; every
channel is `(128/255 - mean_c) / std_c`. -/
theorem normalize_image_spec_witness :
    pixel (normalize_image [[(128, 128, 128)]]) 0 0 =
      some (((128 : ℚ) / 255 - 485 / 1000) / (229 / 1000),
            ((128 : ℚ) / 255 - 456 / 1000) / (224 / 1000),
            ((128 : ℚ) / 255 - 406 / 1000) / (225 / 1000)) :=
  (normalize_image_spec [[(128, 128, 128)]]).2.2 0 0 (128, 128, 128) (by decide)

/-- Counting zipped pairs by a predicate on the first component equals
counting the first list, when the lists have equal length. -/
lemma countP_zip_fst {α β : Type} (q : α → Bool) :
    ∀ (fs : List α) (ls : List β), fs.length = ls.length →
      (fs.zip ls).countP (fun pr => q pr.1) = fs.countP q := by
  intro fs
  induction fs with
  | nil => intro ls _; rfl
  | cons f fs ih =>
      intro ls hlen
      cases ls with
      | nil => simp at hlen
      | cons l ls =>
          simp only [List.zip_cons_cons, List.countP_cons]
          rw [ih ls (by simpa using hlen)]

/-- C4: for equally long feature and label lists, the constructed
dataset's length is the number of input pairs whose image has
`height ≥ cropH` and `width ≥ cropW`; the remaining pairs are dropped
with no error (construction is total). -/
theorem len_counts_retained_pairs (crop_size : ℕ × ℕ)
    (features labels : List (Image RGB)) (table : ℕ → ℕ)
    (hlen : features.length = labels.length) :
    (mkVOCSegDataset crop_size features labels table).len =
      (features.zip labels).countP fun pr =>
        decide (crop_size.1 ≤ height pr.1 ∧ crop_size.2 ≤ width pr.1) := by
  unfold VOCSegDataset.len mkVOCSegDataset sizeFilter
  rw [List.length_map, ← List.countP_eq_length_filter]
  exact (countP_zip_fst _ features labels hlen).symm

/-- Witness for C4, at the example of the spec: five pairs of which two
have height below the crop height; the dataset length is 3. -/
theorem len_counts_retained_pairs_witness :
    (mkVOCSegDataset (2, 1)
      [[[(0, 0, 0)], [(0, 0, 0)]], [[(0, 0, 0)]], [[(0, 0, 0)], [(0, 0, 0)]],
       [[(0, 0, 0)]], [[(0, 0, 0)], [(0, 0, 0)]]]
      [[[(0, 0, 0)], [(0, 0, 0)]], [[(0, 0, 0)]], [[(0, 0, 0)], [(0, 0, 0)]],
       [[(0, 0, 0)]], [[(0, 0, 0)], [(0, 0, 0)]]]
      colormap2label).len =
      (([[[(0, 0, 0)], [(0, 0, 0)]], [[(0, 0, 0)]], [[(0, 0, 0)], [(0, 0, 0)]],
         [[(0, 0, 0)]], [[(0, 0, 0)], [(0, 0, 0)]]] : List (Image RGB)).zip
        ([[[(0, 0, 0)], [(0, 0, 0)]], [[(0, 0, 0)]], [[(0, 0, 0)], [(0, 0, 0)]],
          [[(0, 0, 0)]], [[(0, 0, 0)], [(0, 0, 0)]]] : List (Image RGB))).countP
        (fun pr => decide (2 ≤ height pr.1 ∧ 1 ≤ width pr.1)) ∧
    (mkVOCSegDataset (2, 1)
      [[[(0, 0, 0)], [(0, 0, 0)]], [[(0, 0, 0)]], [[(0, 0, 0)], [(0, 0, 0)]],
       [[(0, 0, 0)]], [[(0, 0, 0)], [(0, 0, 0)]]]
      [[[(0, 0, 0)], [(0, 0, 0)]], [[(0, 0, 0)]], [[(0, 0, 0)], [(0, 0, 0)]],
       [[(0, 0, 0)]], [[(0, 0, 0)], [(0, 0, 0)]]]
      colormap2label).len = 3 :=
  ⟨len_counts_retained_pairs (2, 1) _ _ colormap2label rfl, by decide⟩

/-- Python indexing yields an error outside `[-len, len)`. -/
lemma pyIndex_eq_none {α : Type} (l : List α) (idx : ℤ)
    (h : (l.length : ℤ) ≤ idx ∨ idx < -(l.length : ℤ)) : pyIndex l idx = none := by
  unfold pyIndex
  rcases h with h | h
  · rw [if_pos (by omega)]
    rw [List.get?_eq_none]
    omega
  · rw [if_neg (by omega), if_neg (by omega)]

/-- Python indexing at a negative in-range index aliases to the index
shifted by the list length. -/
lemma pyIndex_neg_eq {α : Type} (l : List α) (idx : ℤ)
    (h0 : -(l.length : ℤ) ≤ idx) (h1 : idx < 0) :
    pyIndex l idx = pyIndex l (idx + l.length) := by
  unfold pyIndex
  rw [if_neg (by omega), if_pos (by omega), if_pos (by omega)]
  congr 1
  omega

/-- C7 counterexample: on a one-example dataset, `get(-1)` — an index
outside `[0, length)` — succeeds instead of failing. -/
theorem getitem_negative_index_succeeds :
    (mkVOCSegDataset (1, 1) [[[(128, 0, 0)]]] [[[(128, 0, 0)]]]
        colormap2label).len = 1 ∧
    ((mkVOCSegDataset (1, 1) [[[(128, 0, 0)]]] [[[(128, 0, 0)]]]
        colormap2label).getitem (-1) 0 0).isSome = true := by decide

/-- C7 amended: `get(idx)` fails with an index error precisely outside
Python's valid range: it returns an error for `idx ≥ length` and for
`idx < -length`, while a negative `idx` in `[-length, -1]` aliases to
`idx + length` (Python list semantics) and is treated like that
in-range index. -/
theorem getitem_out_of_range (ds : VOCSegDataset) (idx : ℤ) (sx sy : ℕ)
    (hlen : ds.labels.length = ds.features.length) :
    (((ds.len : ℤ) ≤ idx ∨ idx < -(ds.len : ℤ)) →
      ds.getitem idx sx sy = none) ∧
    (-(ds.len : ℤ) ≤ idx → idx < 0 →
      ds.getitem idx sx sy = ds.getitem (idx + ds.len) sx sy) := by
  constructor
  · intro h
    have hf : pyIndex ds.features idx = none := pyIndex_eq_none _ _ h
    unfold VOCSegDataset.getitem
    rw [hf]
  · intro h0 h1
    have hf : pyIndex ds.features idx = pyIndex ds.features (idx + ds.len) :=
      pyIndex_neg_eq _ _ h0 h1
    have hl : pyIndex ds.labels idx = pyIndex ds.labels (idx + ds.len) := by
      have := pyIndex_neg_eq ds.labels idx (by rw [hlen]; exact h0) h1
      rw [this, hlen]
      rfl
    unfold VOCSegDataset.getitem
    rw [hf, hl]

/-- Witness for C7 amended: on a one-example dataset, `get(1)` fails and
`get(-1)` equals `get(0)` (same random draw). -/
theorem getitem_out_of_range_witness :
    (mkVOCSegDataset (1, 1) [[[(128, 0, 0)]]] [[[(128, 0, 0)]]]
        colormap2label).getitem 1 0 0 = none ∧
    (mkVOCSegDataset (1, 1) [[[(128, 0, 0)]]] [[[(128, 0, 0)]]]
        colormap2label).getitem (-1) 0 0 =
      (mkVOCSegDataset (1, 1) [[[(128, 0, 0)]]] [[[(128, 0, 0)]]]
        colormap2label).getitem (-1 + (mkVOCSegDataset (1, 1) [[[(128, 0, 0)]]]
          [[[(128, 0, 0)]]] colormap2label).len) 0 0 :=
  ⟨(getitem_out_of_range _ 1 0 0 (by decide)).1 (by decide),
   (getitem_out_of_range _ (-1) 0 0 (by decide)).2 (by decide) (by decide)⟩

/-- C9 counterexample: a 2×2 feature with a 1×1 label — mismatched
height and width — is silently cropped, not rejected: the cropper
returns a crop pair. -/
theorem voc_rand_crop_mismatch_silent :
    height ([[(1 : ℕ), 2], [3, 4]] : Image ℕ) ≠ height ([[(9 : ℕ)]] : Image ℕ) ∧
    width ([[(1 : ℕ), 2], [3, 4]] : Image ℕ) ≠ width ([[(9 : ℕ)]] : Image ℕ) ∧
    voc_rand_crop [[(1 : ℕ), 2], [3, 4]] [[(9 : ℕ)]] 1 1 0 0 =
      some ([[1]], [[9]]) := by decide

/-- C9 amended: `voc_rand_crop` checks no dimension equality between
feature and label.  With the crop within the feature's bounds, the call
succeeds exactly when the rectangle sampled inside the feature also lies
within the label's own bounds — silently cropping mismatched pairs in
that case, and failing only with the underlying slice error otherwise. -/
theorem voc_rand_crop_no_dim_check {α β : Type} (feature : Image α)
    (label : Image β) (cH cW sx sy : ℕ)
    (hH : cH ≤ height feature) (hW : cW ≤ width feature) :
    (voc_rand_crop feature label cH cW sx sy).isSome = true ↔
      sy % (height feature - cH + 1) + cH ≤ height label ∧
      sx % (width feature - cW + 1) + cW ≤ width label := by
  have hxb : sx % (width feature - cW + 1) + cW ≤ width feature := by
    have := Nat.mod_lt sx (show 0 < width feature - cW + 1 by omega)
    omega
  have hyb : sy % (height feature - cH + 1) + cH ≤ height feature := by
    have := Nat.mod_lt sy (show 0 < height feature - cH + 1 by omega)
    omega
  have hf : fixed_crop feature (sx % (width feature - cW + 1))
      (sy % (height feature - cH + 1)) cW cH =
      some (((feature.drop (sy % (height feature - cH + 1))).take cH).map
        fun row => (row.drop (sx % (width feature - cW + 1))).take cW) := by
    unfold fixed_crop
    rw [if_pos ⟨hyb, hxb⟩]
  unfold voc_rand_crop random_crop
  rw [if_pos ⟨hH, hW⟩]
  simp only [hf, Option.map_some']
  unfold fixed_crop
  by_cases hcond : sy % (height feature - cH + 1) + cH ≤ height label ∧
      sx % (width feature - cW + 1) + cW ≤ width label
  · rw [if_pos hcond]
    simpa using hcond
  · rw [if_neg hcond]
    simpa using hcond

/-- Witness for C9 amended, at the mismatched concrete pair of the
counterexample: the equivalence instantiated at a 2×2 feature and a 1×1
label with crop size 1×1 and draws (0, 0). -/
theorem voc_rand_crop_no_dim_check_witness :
    (voc_rand_crop [[(1 : ℕ), 2], [3, 4]] [[(9 : ℕ)]] 1 1 0 0).isSome = true ↔
      0 % (height ([[(1 : ℕ), 2], [3, 4]] : Image ℕ) - 1 + 1) + 1 ≤
        height ([[(9 : ℕ)]] : Image ℕ) ∧
      0 % (width ([[(1 : ℕ), 2], [3, 4]] : Image ℕ) - 1 + 1) + 1 ≤
        width ([[(9 : ℕ)]] : Image ℕ) :=
  voc_rand_crop_no_dim_check [[(1 : ℕ), 2], [3, 4]] [[(9 : ℕ)]] 1 1 0 0
    (by decide) (by decide)

/-- A member of a zip comes from one common position of the two lists. -/
lemma get_of_mem_zip {α β : Type} :
    ∀ (fs : List α) (ls : List β) (a : α) (b : β), (a, b) ∈ fs.zip ls →
      ∃ i, fs.get? i = some a ∧ ls.get? i = some b := by
  intro fs
  induction fs with
  | nil => intro ls a b h; simp at h
  | cons f fs ih =>
      intro ls a b h
      cases ls with
      | nil => simp at h
      | cons l ls =>
          rw [List.zip_cons_cons] at h
          rcases List.mem_cons.1 h with h | h
          · obtain ⟨rfl, rfl⟩ := Prod.mk.inj h
            exact ⟨0, rfl, rfl⟩
          · obtain ⟨i, h1, h2⟩ := ih ls a b h
            exact ⟨i + 1, by simpa using h1, by simpa using h2⟩

/-- Filtering two index-aligned lists by predicates that agree pairwise
is the same as filtering their zip by the first component's predicate:
the projections of the filtered zip are the filtered lists. -/
lemma filter_zip_align {α β : Type} (p : α → Bool) (q : β → Bool) :
    ∀ (fs : List α) (ls : List β), fs.length = ls.length →
      (∀ i f l, fs.get? i = some f → ls.get? i = some l → p f = q l) →
      ((fs.zip ls).filter (fun pr => p pr.1)).map Prod.fst = fs.filter p ∧
      ((fs.zip ls).filter (fun pr => p pr.1)).map Prod.snd = ls.filter q := by
  intro fs
  induction fs with
  | nil =>
      intro ls hlen _
      cases ls with
      | nil => exact ⟨rfl, rfl⟩
      | cons l ls => simp at hlen
  | cons f fs ih =>
      intro ls hlen hpq
      cases ls with
      | nil => simp at hlen
      | cons l ls =>
          have hhd : p f = q l := hpq 0 f l rfl rfl
          have htl : ∀ i f' l', fs.get? i = some f' → ls.get? i = some l' →
              p f' = q l' := fun i f' l' h1 h2 =>
            hpq (i + 1) f' l' (by simpa using h1) (by simpa using h2)
          obtain ⟨ih1, ih2⟩ := ih ls (by simpa using hlen) htl
          rw [List.zip_cons_cons]
          by_cases hp : p f = true
          · have hq : q l = true := hhd ▸ hp
            simp only [List.filter_cons, hp, hq, if_true, List.map_cons]
            exact ⟨by rw [ih1], by rw [ih2]⟩
          · have hq : ¬q l = true := hhd ▸ hp
            simp only [List.filter_cons, hp, hq, if_false, Bool.false_eq_true,
              ite_false]
            exact ⟨ih1, ih2⟩

/-- The projections of the size-filtered zip are the size-filtered
feature and label lists, when paired images have equal dimensions. -/
lemma sizeFilter_zip_align (crop_size : ℕ × ℕ)
    (features labels : List (Image RGB))
    (hlen : features.length = labels.length)
    (hdims : ∀ i f l, features.get? i = some f → labels.get? i = some l →
      height f = height l ∧ width f = width l) :
    ((features.zip labels).filter fun pr =>
        decide (crop_size.1 ≤ height pr.1 ∧ crop_size.2 ≤ width pr.1)).map
        Prod.fst = sizeFilter crop_size features ∧
    ((features.zip labels).filter fun pr =>
        decide (crop_size.1 ≤ height pr.1 ∧ crop_size.2 ≤ width pr.1)).map
        Prod.snd = sizeFilter crop_size labels := by
  have h := filter_zip_align
    (fun img => decide (crop_size.1 ≤ height img ∧ crop_size.2 ≤ width img))
    (fun img => decide (crop_size.1 ≤ height img ∧ crop_size.2 ≤ width img))
    features labels hlen ?_
  · exact h
  · intro i f l h1 h2
    obtain ⟨hh, hw⟩ := hdims i f l h1 h2
    simp only [hh, hw]

/-- Core access invariant of a constructed dataset with index-aligned,
equally-dimensioned raw pairs: stored features and labels have equal
length, and the entries at one index are the normalized feature and the
raw label of one common original pair, which passed the size filter. -/
lemma mk_dataset_access (crop_size : ℕ × ℕ)
    (features labels : List (Image RGB)) (table : ℕ → ℕ)
    (hlen : features.length = labels.length)
    (hdims : ∀ i f l, features.get? i = some f → labels.get? i = some l →
      height f = height l ∧ width f = width l) :
    (mkVOCSegDataset crop_size features labels table).features.length =
      (mkVOCSegDataset crop_size features labels table).labels.length ∧
    ∀ idx fr lr,
      (mkVOCSegDataset crop_size features labels table).features.get? idx =
        some fr →
      (mkVOCSegDataset crop_size features labels table).labels.get? idx =
        some lr →
      ∃ i f, features.get? i = some f ∧ labels.get? i = some lr ∧
        fr = normalize_image f ∧ f ∈ features ∧ lr ∈ labels ∧
        crop_size.1 ≤ height f ∧ crop_size.2 ≤ width f ∧
        height f = height lr ∧ width f = width lr := by
  obtain ⟨ha1, ha2⟩ := sizeFilter_zip_align crop_size features labels hlen hdims
  have hfeat : (mkVOCSegDataset crop_size features labels table).features =
      (((features.zip labels).filter fun pr =>
        decide (crop_size.1 ≤ height pr.1 ∧ crop_size.2 ≤ width pr.1)).map
        Prod.fst).map normalize_image := by
    show (sizeFilter crop_size features).map normalize_image = _
    rw [ha1]
  have hlab : (mkVOCSegDataset crop_size features labels table).labels =
      ((features.zip labels).filter fun pr =>
        decide (crop_size.1 ≤ height pr.1 ∧ crop_size.2 ≤ width pr.1)).map
        Prod.snd := by
    show sizeFilter crop_size labels = _
    rw [ha2]
  constructor
  · rw [hfeat, hlab]
    simp only [List.length_map]
  · intro idx fr lr hfr hlr
    rw [hfeat] at hfr
    rw [hlab] at hlr
    rw [List.get?_eq_getElem?, List.getElem?_map, List.getElem?_map] at hfr
    rw [List.get?_eq_getElem?, List.getElem?_map] at hlr
    cases hz : ((features.zip labels).filter fun pr =>
        decide (crop_size.1 ≤ height pr.1 ∧ crop_size.2 ≤ width pr.1))[idx]? with
    | none => rw [hz] at hfr; cases hfr
    | some pr =>
        rw [hz] at hfr hlr
        simp only [Option.map_some'] at hfr hlr
        have hfr2 : fr = normalize_image pr.1 :=
          (Option.some.inj hfr).symm
        have hlr2 : lr = pr.2 := (Option.some.inj hlr).symm
        have hprmem : pr ∈ (features.zip labels).filter fun pr =>
            decide (crop_size.1 ≤ height pr.1 ∧ crop_size.2 ≤ width pr.1) := by
          rw [← List.get?_eq_getElem?] at hz
          exact List.get?_mem hz
        obtain ⟨hprzip, hprdec⟩ := List.mem_filter.1 hprmem
        have hsize : crop_size.1 ≤ height pr.1 ∧ crop_size.2 ≤ width pr.1 :=
          of_decide_eq_true hprdec
        obtain ⟨i, hif, hil⟩ := get_of_mem_zip features labels pr.1 pr.2
          (by cases pr; exact hprzip)
        obtain ⟨hh, hw⟩ := hdims i pr.1 pr.2 hif hil
        subst hlr2
        exact ⟨i, pr.1, hif, hil, hfr2, List.get?_mem hif, List.get?_mem hil,
          hsize.1, hsize.2, hh, hw⟩

/-- C10: the constructor filters features and labels independently with
the same size predicate, so for inputs whose i-th feature and i-th label
have identical height and width, the stored lists have equal length and
stay index-aligned: the entries at each index are the normalized feature
and the label of one common original pair. -/
theorem init_pairing_invariant (crop_size : ℕ × ℕ)
    (features labels : List (Image RGB)) (table : ℕ → ℕ)
    (hlen : features.length = labels.length)
    (hdims : ∀ i f l, features.get? i = some f → labels.get? i = some l →
      height f = height l ∧ width f = width l) :
    (mkVOCSegDataset crop_size features labels table).features.length =
      (mkVOCSegDataset crop_size features labels table).labels.length ∧
    ∀ idx fr lr,
      (mkVOCSegDataset crop_size features labels table).features.get? idx =
        some fr →
      (mkVOCSegDataset crop_size features labels table).labels.get? idx =
        some lr →
      ∃ i f, features.get? i = some f ∧ labels.get? i = some lr ∧
        fr = normalize_image f := by
  obtain ⟨h1, h2⟩ := mk_dataset_access crop_size features labels table hlen hdims
  refine ⟨h1, fun idx fr lr hfr hlr => ?_⟩
  obtain ⟨i, f, hif, hil, hnorm, _⟩ := h2 idx fr lr hfr hlr
  exact ⟨i, f, hif, hil, hnorm⟩

/-- Witness for C10: two raw pairs of matching dimensions, crop size
1×1; the stored entries at index 0 come from the pair at index 0. -/
theorem init_pairing_invariant_witness :
    (mkVOCSegDataset (1, 1) [[[(128, 0, 0)]]] [[[(0, 0, 0)]]]
        colormap2label).features.length =
      (mkVOCSegDataset (1, 1) [[[(128, 0, 0)]]] [[[(0, 0, 0)]]]
        colormap2label).labels.length ∧
    ∀ idx fr lr,
      (mkVOCSegDataset (1, 1) [[[(128, 0, 0)]]] [[[(0, 0, 0)]]]
        colormap2label).features.get? idx = some fr →
      (mkVOCSegDataset (1, 1) [[[(128, 0, 0)]]] [[[(0, 0, 0)]]]
        colormap2label).labels.get? idx = some lr →
      ∃ i f, ([[[(128, 0, 0)]]] : List (Image RGB)).get? i = some f ∧
        ([[[(0, 0, 0)]]] : List (Image RGB)).get? i = some lr ∧
        fr = normalize_image f :=
  init_pairing_invariant (1, 1) [[[(128, 0, 0)]]] [[[(0, 0, 0)]]]
    colormap2label rfl (by
      intro i f l h1 h2
      match i with
      | 0 =>
          obtain rfl := Option.some.inj h1
          obtain rfl := Option.some.inj h2
          exact ⟨rfl, rfl⟩
      | n + 1 => cases h1)

/-- Python indexing at a nonnegative index is plain list lookup. -/
lemma pyIndex_ofNat {α : Type} (l : List α) (n : ℕ) :
    pyIndex l (n : ℤ) = l.get? n := by
  unfold pyIndex
  rw [if_pos (by omega)]
  simp

/-- Mapping over pixels keeps the height. -/
lemma height_map_map {α β : Type} (f : α → β) (img : Image α) :
    height (img.map (List.map f)) = height img := by
  simp [height]

/-- Mapping over pixels keeps the width. -/
lemma width_map_map {α β : Type} (f : α → β) (img : Image α) :
    width (img.map (List.map f)) = width img := by
  cases img with
  | nil => rfl
  | cons r rs => simp [width]

/-- Mapping over pixels keeps every row's agreement with the width. -/
lemma rows_width_map_map {α β : Type} (f : α → β) {img : Image α}
    (h : ∀ row ∈ img, row.length = width img) :
    ∀ row ∈ img.map (List.map f),
      row.length = width (img.map (List.map f)) := by
  intro row hrow
  obtain ⟨r, hr, rfl⟩ := List.mem_map.1 hrow
  rw [width_map_map, List.length_map]
  exact h r hr

/-- C5: for a dataset built from index-aligned rectangular raw pairs of
matching dimensions, every access `get(idx)` at a valid `idx`, for every
random draw, returns a feature of shape `(3, cropH, cropW)` — a
3-channel stack of `cropH × cropW` planes — and a label map of shape
`(cropH, cropW)`. -/
theorem getitem_shapes (crop_size : ℕ × ℕ)
    (features labels : List (Image RGB)) (table : ℕ → ℕ)
    (hlen : features.length = labels.length)
    (hrectf : ∀ f ∈ features, ∀ row ∈ f, row.length = width f)
    (hrectl : ∀ l ∈ labels, ∀ row ∈ l, row.length = width l)
    (hdims : ∀ i f l, features.get? i = some f → labels.get? i = some l →
      height f = height l ∧ width f = width l)
    (idx sx sy : ℕ)
    (hidx : idx < (mkVOCSegDataset crop_size features labels table).len) :
    ∃ fc lmap,
      (mkVOCSegDataset crop_size features labels table).getitem (idx : ℤ)
        sx sy = some (fc, lmap) ∧
      fc.length = 3 ∧
      (∀ plane ∈ fc, isRect plane crop_size.1 crop_size.2) ∧
      isRect lmap crop_size.1 crop_size.2 := by
  obtain ⟨heq, hacc⟩ := mk_dataset_access crop_size features labels table
    hlen hdims
  have hidxf : idx < (mkVOCSegDataset crop_size features labels
      table).features.length := hidx
  have hidxl : idx < (mkVOCSegDataset crop_size features labels
      table).labels.length := by rw [← heq]; exact hidxf
  have hfr := List.get?_eq_get hidxf
  have hlr := List.get?_eq_get hidxl
  obtain ⟨i, f, hif, hil, hnorm, hfm, hlm, hcH, hcW, hh, hw⟩ :=
    hacc idx _ _ hfr hlr
  have hrectfr : ∀ row ∈ (mkVOCSegDataset crop_size features labels
      table).features.get ⟨idx, hidxf⟩, row.length = width ((mkVOCSegDataset
      crop_size features labels table).features.get ⟨idx, hidxf⟩) := by
    rw [hnorm]
    exact rows_width_map_map _ (hrectf f hfm)
  have hrectlr : ∀ row ∈ (mkVOCSegDataset crop_size features labels
      table).labels.get ⟨idx, hidxl⟩, row.length = width ((mkVOCSegDataset
      crop_size features labels table).labels.get ⟨idx, hidxl⟩) :=
    hrectl _ hlm
  have hdimfr : height ((mkVOCSegDataset crop_size features labels
        table).features.get ⟨idx, hidxf⟩) = height f ∧
      width ((mkVOCSegDataset crop_size features labels
        table).features.get ⟨idx, hidxf⟩) = width f := by
    rw [hnorm]
    exact ⟨height_map_map _ f, width_map_map _ f⟩
  obtain ⟨fc, lc, x0, y0, hcrop, _, _, hfcR, hlcR, _⟩ :=
    @voc_rand_crop_spec (ℚ × ℚ × ℚ) RGB
      ((mkVOCSegDataset crop_size features labels table).features.get
        ⟨idx, hidxf⟩)
      ((mkVOCSegDataset crop_size features labels table).labels.get
        ⟨idx, hidxl⟩)
      crop_size.1 crop_size.2 sx sy
      hrectfr hrectlr
      (by rw [hdimfr.1, hh])
      (by rw [hdimfr.2, hw])
      (by rw [hdimfr.1]; exact hcH)
      (by rw [hdimfr.2]; exact hcW)
  refine ⟨transposeCHW fc, voc_label_indices lc table, ?_, rfl, ?_, ?_⟩
  · unfold VOCSegDataset.getitem
    rw [pyIndex_ofNat, pyIndex_ofNat, hfr, hlr]
    have hcs1 : (mkVOCSegDataset crop_size features labels table).crop_size.1 =
      crop_size.1 := rfl
    have hcs2 : (mkVOCSegDataset crop_size features labels table).crop_size.2 =
      crop_size.2 := rfl
    have htab : (mkVOCSegDataset crop_size features labels table).table =
      table := rfl
    simp only [hcs1, hcs2, htab, hcrop]
  · intro plane hplane
    simp only [transposeCHW, List.mem_cons, List.not_mem_nil, or_false]
      at hplane
    rcases hplane with rfl | rfl | rfl <;> exact isRect_map_map _ hfcR
  · exact isRect_map_map table (isRect_map_map colorKey hlcR)

/-- Witness for C5: a one-pair dataset of 1×1 images with crop size 1×1,
index 0 and draws (0, 0). -/
theorem getitem_shapes_witness :
    ∃ fc lmap,
      (mkVOCSegDataset (1, 1) [[[(10, 20, 30)]]] [[[(128, 0, 0)]]]
        colormap2label).getitem ((0 : ℕ) : ℤ) 0 0 = some (fc, lmap) ∧
      fc.length = 3 ∧ (∀ plane ∈ fc, isRect plane 1 1) ∧ isRect lmap 1 1 :=
  getitem_shapes (1, 1) [[[(10, 20, 30)]]] [[[(128, 0, 0)]]] colormap2label
    rfl (by decide) (by decide)
    (by
      intro i f l h1 h2
      match i with
      | 0 =>
          obtain rfl := Option.some.inj h1
          obtain rfl := Option.some.inj h2
          exact ⟨rfl, rfl⟩
      | n + 1 => cases h1)
    0 0 0 (by decide)

end VOC
